import Mathlib

/-!
Verification of the viewport-driven UI state engine of the portfolio
single-page application (src/react_frontend/src/App.js): the contact-form
validator and session, the scroll-spy resolver and the reveal controller.
JS strings are embedded as lists of characters, JS numbers occurring in
geometry (intersection ratios, offsets, scroll positions) as rationals.
-/

namespace Portfolio

/-- Whitespace as matched by the regex class backslash-s and removed by
JS String.prototype.trim: space, tab, line feed, vertical tab, form feed,
carriage return, NBSP, Ogham space mark, the U+2000 to U+200A range, line
and paragraph separators, narrow no-break space, medium mathematical
space, ideographic space and the BOM. -/
def isJsWhitespace (c : Char) : Bool :=
  c == ' ' || c == '\t' || c == '\n' || c == '\u000b' || c == '\u000c' ||
  c == '\r' || c == '\u00a0' || c == '\u1680' ||
  (0x2000 ≤ c.toNat && c.toNat ≤ 0x200A) ||
  c == '\u2028' || c == '\u2029' || c == '\u202f' || c == '\u205f' ||
  c == '\u3000' || c == '\ufeff'

/-- JS String.prototype.trim: remove whitespace from both ends. -/
def jsTrim (l : List Char) : List Char :=
  ((l.dropWhile isJsWhitespace).reverse.dropWhile isJsWhitespace).reverse

/-- A character allowed by the regex class excluding whitespace and '@'
used three times in the email pattern of validateContact. -/
def isEmailAtom (c : Char) : Bool :=
  !(isJsWhitespace c) && !(c == '@')

/-- The test of the source regex anchored on both sides: one or more
atom characters, '@', one or more atom characters, '.', one or more atom
characters, where an atom character is neither whitespace nor '@'.  The
string matches exactly when some position i holds the '@', some later
position j holds the '.', and the three segments cut out by i and j are
nonempty and made of atom characters; the search below ranges over all
such pairs of positions. -/
def emailRegexTest (l : List Char) : Bool :=
  (List.range l.length).any fun i =>
    (List.range l.length).any fun j =>
      decide (0 < i) && decide (i + 1 < j) && decide (j + 1 < l.length) &&
      (l.getD i ' ' == '@') && (l.getD j ' ' == '.') &&
      (l.take i).all isEmailAtom &&
      ((l.drop (i + 1)).take (j - i - 1)).all isEmailAtom &&
      (l.drop (j + 1)).all isEmailAtom

/-- The contact form field values (JS strings as character lists). -/
structure ContactValues where
  name : List Char
  email : List Char
  message : List Char
deriving DecidableEq

/-- The errors object of validateContact: one optional message per
field, none standing for an absent key. -/
structure ContactErrors where
  name : Option String
  email : Option String
  message : Option String
deriving DecidableEq

/-- Object.keys(errors).length === 0 for the three possible keys. -/
def ContactErrors.isEmpty (e : ContactErrors) : Bool :=
  e.name.isNone && e.email.isNone && e.message.isNone

/-- validateContact from App.js: trim the three fields, then emit the
error message of every failing rule, keys of passing fields absent. -/
def validateContact (values : ContactValues) : ContactErrors :=
  let name := jsTrim values.name
  let email := jsTrim values.email
  let message := jsTrim values.message
  { name := if name.isEmpty then some "Please enter your name." else none
    email :=
      if email.isEmpty then some "Please enter your email."
      else if !emailRegexTest email then some "Please enter a valid email address."
      else none
    message :=
      if message.isEmpty then some "Please write a message."
      else if message.length < 20 then some "Please write at least 20 characters."
      else none }

/-- The language of the source regex, spelled as a decomposition: three
nonempty segments of atom characters joined by a '@' and then a '.'. -/
def emailDecomp (l : List Char) : Prop :=
  ∃ a b c : List Char,
    l = a ++ '@' :: (b ++ '.' :: c) ∧ a ≠ [] ∧ b ≠ [] ∧ c ≠ [] ∧
    (∀ x ∈ a, isEmailAtom x = true) ∧ (∀ x ∈ b, isEmailAtom x = true) ∧
    (∀ x ∈ c, isEmailAtom x = true)

/-- Modelled from the spec: the pattern as the spec words it, where the
final segment after the '.' only excludes whitespace (one or more
non-space-non-at characters, '@', one or more non-space-non-at
characters, '.', one or more non-space characters). -/
def specEmailDecomp (l : List Char) : Prop :=
  ∃ a b c : List Char,
    l = a ++ '@' :: (b ++ '.' :: c) ∧ a ≠ [] ∧ b ≠ [] ∧ c ≠ [] ∧
    (∀ x ∈ a, isEmailAtom x = true) ∧ (∀ x ∈ b, isEmailAtom x = true) ∧
    (∀ x ∈ c, isJsWhitespace x = false)

/-- The three touched flags of the contact form. -/
structure ContactTouched where
  name : Bool
  email : Bool
  message : Bool
deriving DecidableEq

/-- The contact form session state held by the App component:
contactValues, contactTouched and contactSubmitted. -/
structure ContactSession where
  values : ContactValues
  touched : ContactTouched
  submitted : Bool
deriving DecidableEq

/-- A field of the contact form, the name attribute of the input. -/
inductive ContactField where
  | name
  | email
  | message
deriving DecidableEq

/-- Read one field of the values object. -/
def ContactValues.field (v : ContactValues) : ContactField → List Char
  | .name => v.name
  | .email => v.email
  | .message => v.message

/-- The spread update of one key of the values object. -/
def ContactValues.setField (v : ContactValues) : ContactField → List Char → ContactValues
  | .name, t => { v with name := t }
  | .email, t => { v with email := t }
  | .message, t => { v with message := t }

/-- onContactChange from App.js: clear submitted, update the one field
named by the event target; touched flags are untouched. -/
def onContactChange (s : ContactSession) (f : ContactField) (t : List Char) : ContactSession :=
  { s with submitted := false, values := s.values.setField f t }

/-- onContactBlur from App.js: mark the blurred field touched. -/
def onContactBlur (s : ContactSession) (f : ContactField) : ContactSession :=
  { s with touched :=
      match f with
      | .name => { s.touched with name := true }
      | .email => { s.touched with email := true }
      | .message => { s.touched with message := true } }

/-- onContactSubmit from App.js: mark every field touched; when the
current values validate cleanly, set submitted and clear values and
touched, otherwise leave values and submitted as they were. -/
def onContactSubmit (s : ContactSession) : ContactSession :=
  let s₁ : ContactSession := { s with touched := ⟨true, true, true⟩ }
  if (validateContact s.values).isEmpty then
    { values := ⟨[], [], []⟩, touched := ⟨false, false, false⟩, submitted := true }
  else s₁

/-! ### Scroll spy (useScrollSpy) -/

/-- One IntersectionObserver entry as consumed by the scroll-spy
callback: the id of the target element, whether it intersects, its
intersection ratio and the top of its bounding client rect. -/
structure ObsEntry where
  targetId : String
  isIntersecting : Bool
  ratioVal : ℚ
  top : ℚ
deriving DecidableEq

/-- The record built from an intersecting entry by the callback. -/
structure VisEntry where
  id : String
  ratioVal : ℚ
  top : ℚ
deriving DecidableEq

/-- The sort comparator of the callback read as a before-or-equal test:
compare (a, b) returns b.ratio - a.ratio when the ratios differ and
otherwise the difference of the absolute tops, and a may precede b
exactly when that number is nonpositive. -/
def visLe (a b : VisEntry) : Bool :=
  if b.ratioVal ≠ a.ratioVal then decide (b.ratioVal - a.ratioVal ≤ 0)
  else decide (|a.top| - |b.top| ≤ 0)

/-- The selection of the observer callback: keep intersecting entries,
project to id, ratio and top, sort by the comparator, take the head. -/
def selectVisible (entries : List ObsEntry) : Option VisEntry :=
  (((entries.filter (·.isIntersecting)).map
      (fun e => VisEntry.mk e.targetId e.ratioVal e.top)).mergeSort visLe).head?

/-- The observer callback acting on the current active id: returns the
new active id and whether setActiveId was invoked. -/
def observerStep (active : String) (entries : List ObsEntry) : String × Bool :=
  match selectVisible entries with
  | some v => if v.id ≠ active then (v.id, true) else (active, false)
  | none => (active, false)

/-- The header offset constant of the fallback scroll handler. -/
def headerOffset : ℚ := 96

/-- The body of the fallback scroll walk: an id whose element is
missing is skipped, one whose offsetTop is at most
scrollY + headerOffset replaces the current candidate. -/
def fallbackUpd (offsetTop : String → Option ℚ) (scrollY : ℚ)
    (current id : String) : String :=
  match offsetTop id with
  | none => current
  | some t => if t ≤ scrollY + headerOffset then id else current

/-- The selection of the fallback onScroll handler: starting from the
first id, walk the ids in order and keep the last one whose element
exists and whose offsetTop is at most scrollY + headerOffset; ids with
no element are skipped.  Returns none on an empty id list, on which the
handler is never installed. -/
def fallbackSelect (offsetTop : String → Option ℚ) (scrollY : ℚ) :
    List String → Option String
  | [] => none
  | first :: rest =>
    some ((first :: rest).foldl (fallbackUpd offsetTop scrollY) first)

/-- The fallback onScroll handler acting on the current active id:
returns the new active id and whether setActiveId was invoked. -/
def fallbackStep (active : String) (offsetTop : String → Option ℚ) (scrollY : ℚ)
    (ids : List String) : String × Bool :=
  match fallbackSelect offsetTop scrollY ids with
  | some current => if current ≠ active then (current, true) else (active, false)
  | none => (active, false)

/-- An event driving the scroll spy: an observer callback batch, whose
entry ids are those of observed section elements, or a scroll event
giving the current element geometry and scroll position. -/
inductive SpyEvent where
  | observe (entries : List ObsEntry)
  | scroll (offsetTop : String → Option ℚ) (scrollY : ℚ)

/-- The initial active id: sectionIds[0] when truthy, else "home". -/
def initActive : List String → String
  | [] => "home"
  | first :: _ => if first = "" then "home" else first

/-- The filter (sectionIds || []).filter(Boolean): keep truthy ids. -/
def filterIds (sectionIds : List String) : List String :=
  sectionIds.filter (fun id => id ≠ "")

/-- One event step of the scroll spy on the filtered id list. -/
def spyStep (ids : List String) (active : String) : SpyEvent → String
  | .observe entries => (observerStep active entries).1
  | .scroll offsetTop y => (fallbackStep active offsetTop y ids).1

/-- The active id after a sequence of events: when the filtered id list
is empty the effect returns before installing any observer or listener,
so the state never moves from its initial value. -/
def spyRun (sectionIds : List String) (events : List SpyEvent) : String :=
  let ids := filterIds sectionIds
  if ids.isEmpty then initActive sectionIds
  else events.foldl (spyStep ids) (initActive sectionIds)

/-! ### Reveal controller (useRevealOnScroll) -/

/-- One observer entry of the reveal callback: target element and
whether it intersects the trigger band. -/
structure RevealEntry where
  target : String
  isIntersecting : Bool
deriving DecidableEq

/-- The reveal controller state: the set of elements carrying the
is-revealed class and the set of elements currently observed. -/
structure RevealState where
  revealed : Finset String
  observed : Finset String
deriving DecidableEq

/-- The handling of one entry by the reveal callback: an intersecting
entry gets the is-revealed class added and its target unobserved. -/
def revealUpd (st : RevealState) (e : RevealEntry) : RevealState :=
  if e.isIntersecting then
    { revealed := insert e.target st.revealed,
      observed := st.observed.erase e.target }
  else st

/-- The reveal observer callback over one batch of entries. -/
def revealStep (s : RevealState) (entries : List RevealEntry) : RevealState :=
  entries.foldl revealUpd s

/-- The reveal state after a sequence of observer callback batches. -/
def revealRun (s : RevealState) (events : List (List RevealEntry)) : RevealState :=
  events.foldl revealStep s

/-- The states traversed while processing a sequence of batches. -/
def revealTrace (s : RevealState) (events : List (List RevealEntry)) : List RevealState :=
  events.scanl revealStep s

/-- How many steps of a state trace newly reveal the element x. -/
def transitionCount (x : String) (states : List RevealState) : Nat :=
  (states.zip states.tail).countP
    (fun p => decide (x ∉ p.1.revealed ∧ x ∈ p.2.revealed))

/-- The effect body of useRevealOnScroll: with no reveal-marked element
it does nothing; under reduced motion, or without IntersectionObserver,
every element is given the is-revealed class at once and nothing is
observed; otherwise every element, already revealed or not, is observed
and no class is added yet. -/
def revealEffect (reducedMotion hasObserver : Bool) (elements : List String)
    (revealed₀ : Finset String) : RevealState :=
  if elements.isEmpty then ⟨revealed₀, ∅⟩
  else if reducedMotion then
    ⟨elements.foldl (fun r e => insert e r) revealed₀, ∅⟩
  else if !hasObserver then
    ⟨elements.foldl (fun r e => insert e r) revealed₀, ∅⟩
  else ⟨revealed₀, elements.toFinset⟩

/-! ### Helper lemmas on list decompositions -/

lemma take_append_cons (a t : List Char) (x : Char) :
    (a ++ x :: t).take a.length = a :=
  List.take_left' rfl

lemma getD_append_cons (a t : List Char) (x d : Char) :
    (a ++ x :: t).getD a.length d = x := by
  rw [List.getD_eq_getElem?_getD, List.getElem?_append_right (Nat.le_refl _)]
  simp

lemma drop_append_cons (a t : List Char) (x : Char) :
    (a ++ x :: t).drop (a.length + 1) = t := by
  have h : a ++ x :: t = (a ++ [x]) ++ t := by simp
  rw [h]
  exact List.drop_left' (by simp)

lemma eq_take_getD_drop (l : List Char) (i : Nat) (h : i < l.length) (d : Char) :
    l = l.take i ++ l.getD i d :: l.drop (i + 1) := by
  have hd : l.getD i d = l[i] := by
    rw [List.getD_eq_getElem?_getD, List.getElem?_eq_getElem h]
    rfl
  rw [hd, ← List.drop_eq_getElem_cons h, List.take_append_drop]

/-- The index search of emailRegexTest finds exactly the decompositions
into three nonempty atom segments. -/
lemma emailRegexTest_iff (l : List Char) : emailRegexTest l = true ↔ emailDecomp l := by
  constructor
  · intro h
    unfold emailRegexTest at h
    rw [List.any_eq_true] at h
    obtain ⟨i, hi, h⟩ := h
    rw [List.any_eq_true] at h
    obtain ⟨j, hj, h⟩ := h
    rw [List.mem_range] at hi hj
    simp only [Bool.and_eq_true, decide_eq_true_eq, beq_iff_eq, List.all_eq_true] at h
    obtain ⟨⟨⟨⟨⟨⟨⟨hi0, hij⟩, hjl⟩, hat⟩, hdot⟩, ha⟩, hb⟩, hc⟩ := h
    have h1 := eq_take_getD_drop l i (by omega) ' '
    rw [hat] at h1
    have hmid : l.drop (i + 1) =
        (l.drop (i + 1)).take (j - i - 1) ++ '.' :: l.drop (j + 1) := by
      have h2 := eq_take_getD_drop (l.drop (i + 1)) (j - i - 1)
        (by rw [List.length_drop]; omega) ' '
      have hg : (l.drop (i + 1)).getD (j - i - 1) ' ' = '.' := by
        rw [List.getD_eq_getElem?_getD, List.getElem?_drop]
        have he : i + 1 + (j - i - 1) = j := by omega
        rw [he, ← List.getD_eq_getElem?_getD, hdot]
      have hd : (l.drop (i + 1)).drop (j - i - 1 + 1) = l.drop (j + 1) := by
        rw [List.drop_drop]
        congr 1
        omega
      rw [hg, hd] at h2
      exact h2
    refine ⟨l.take i, (l.drop (i + 1)).take (j - i - 1), l.drop (j + 1),
      ?_, ?_, ?_, ?_, ?_, ?_, ?_⟩
    · calc l = l.take i ++ '@' :: l.drop (i + 1) := h1
        _ = l.take i ++ '@' ::
              ((l.drop (i + 1)).take (j - i - 1) ++ '.' :: l.drop (j + 1)) := by
            conv_lhs => rw [hmid]
    · refine List.ne_nil_of_length_pos ?_
      rw [List.length_take]
      omega
    · refine List.ne_nil_of_length_pos ?_
      rw [List.length_take, List.length_drop]
      omega
    · refine List.ne_nil_of_length_pos ?_
      rw [List.length_drop]
      omega
    · exact ha
    · exact hb
    · exact hc
  · rintro ⟨a, b, c, rfl, ha0, hb0, hc0, ha, hb, hc⟩
    have hlen : (a ++ '@' :: (b ++ '.' :: c)).length
        = a.length + b.length + c.length + 2 := by
      simp only [List.length_append, List.length_cons]
      omega
    have hre : a ++ '@' :: (b ++ '.' :: c) = (a ++ '@' :: b) ++ '.' :: c := by
      simp
    have hb' : 0 < b.length := List.length_pos.mpr hb0
    have ha' : 0 < a.length := List.length_pos.mpr ha0
    have hc' : 0 < c.length := List.length_pos.mpr hc0
    unfold emailRegexTest
    rw [List.any_eq_true]
    refine ⟨a.length, List.mem_range.mpr (by rw [hlen]; omega), ?_⟩
    rw [List.any_eq_true]
    refine ⟨a.length + 1 + b.length, List.mem_range.mpr (by rw [hlen]; omega), ?_⟩
    simp only [Bool.and_eq_true, decide_eq_true_eq, beq_iff_eq, List.all_eq_true]
    refine ⟨⟨⟨⟨⟨⟨⟨by omega, by omega⟩, by rw [hlen]; omega⟩, ?_⟩, ?_⟩, ?_⟩, ?_⟩, ?_⟩
    · exact getD_append_cons a (b ++ '.' :: c) '@' ' '
    · rw [hre]
      have hidx : a.length + 1 + b.length = (a ++ '@' :: b).length := by
        rw [List.length_append, List.length_cons]
        omega
      rw [hidx]
      exact getD_append_cons (a ++ '@' :: b) c '.' ' '
    · rw [take_append_cons]
      exact ha
    · rw [drop_append_cons]
      have hidx : a.length + 1 + b.length - a.length - 1 = b.length := by omega
      rw [hidx, take_append_cons]
      exact hb
    · rw [hre]
      have hidx : a.length + 1 + b.length + 1 = (a ++ '@' :: b).length + 1 := by
        rw [List.length_append, List.length_cons]
        omega
      rw [hidx, drop_append_cons]
      exact hc

/-! ### Claim theorems: contact form -/

/-- C1: validateContact trims each field and reports the name error
exactly when the trimmed name is empty and the message errors exactly as
specified, carries entries only for failing fields, is empty exactly
when no field carries an error, and returns a value on fully empty
input. -/
theorem validateContact_fields (v : ContactValues) :
    ((validateContact v).name =
      if jsTrim v.name = [] then some "Please enter your name." else none)
  ∧ ((validateContact v).message =
      if jsTrim v.message = [] then some "Please write a message."
      else if (jsTrim v.message).length < 20 then some "Please write at least 20 characters."
      else none)
  ∧ ((validateContact v).isEmpty = true ↔
      (validateContact v).name = none ∧ (validateContact v).email = none ∧
        (validateContact v).message = none)
  ∧ validateContact ⟨[], [], []⟩ =
      ⟨some "Please enter your name.", some "Please enter your email.",
        some "Please write a message."⟩ := by
  refine ⟨?_, ?_, ?_, by decide⟩
  · by_cases h : jsTrim v.name = [] <;>
      simp [validateContact, List.isEmpty_iff, h]
  · by_cases h : jsTrim v.message = [] <;>
      by_cases h2 : (jsTrim v.message).length < 20 <;>
      simp [validateContact, List.isEmpty_iff, h, h2]
  · simp [ContactErrors.isEmpty, Bool.and_eq_true, Option.isNone_iff_eq_none, and_assoc]

/-- C2 (amended: all three pattern segments exclude the at sign, the
last one included): validateContact reports the missing-email error
exactly when the trimmed email is empty, the invalid-email error exactly
when the trimmed email is nonempty and has no decomposition into three
nonempty segments of non-whitespace non-at characters joined by an at
sign and then a dot, and no email entry otherwise. -/
theorem validateContact_email (v : ContactValues) :
    ((validateContact v).email = some "Please enter your email." ↔ jsTrim v.email = [])
  ∧ ((validateContact v).email = some "Please enter a valid email address." ↔
      (jsTrim v.email ≠ [] ∧ ¬ emailDecomp (jsTrim v.email)))
  ∧ ((validateContact v).email = none ↔
      (jsTrim v.email ≠ [] ∧ emailDecomp (jsTrim v.email))) := by
  by_cases h : jsTrim v.email = []
  · simp [validateContact, List.isEmpty_iff, h]
  · by_cases hm : emailRegexTest (jsTrim v.email) = true
    · have hd := (emailRegexTest_iff (jsTrim v.email)).mp hm
      simp [validateContact, List.isEmpty_iff, h, hm, hd]
    · have hd : ¬ emailDecomp (jsTrim v.email) :=
        fun hdec => hm ((emailRegexTest_iff (jsTrim v.email)).mpr hdec)
      simp [validateContact, List.isEmpty_iff, h, hm, hd]

/-- C2 counterexample: on the email a@b.c@d the code reports an invalid
address although the string matches the pattern in the form the spec
words it, whose final segment excludes only whitespace; the code regex
excludes the at sign there as well. -/
theorem validateContact_email_cex :
    (validateContact ⟨['A'], ['a', '@', 'b', '.', 'c', '@', 'd'], []⟩).email =
      some "Please enter a valid email address."
    ∧ specEmailDecomp (jsTrim ['a', '@', 'b', '.', 'c', '@', 'd']) := by
  refine ⟨by decide, ['a'], ['b'], ['c', '@', 'd'],
    by decide, by decide, by decide, by decide, by decide, by decide, by decide⟩

/-- C3: a submit attempt marks all fields touched, then on a cleanly
validating form sets submitted and clears values and touched, and
otherwise leaves values and submitted unchanged with every field
touched; a change event clears submitted and updates exactly the one
changed field, leaving the touched flags alone. -/
theorem contact_submit_flow (s : ContactSession) (f : ContactField) (t : List Char) :
    ((validateContact s.values).isEmpty = true →
      onContactSubmit s = ⟨⟨[], [], []⟩, ⟨false, false, false⟩, true⟩)
  ∧ ((validateContact s.values).isEmpty = false →
      onContactSubmit s = ⟨s.values, ⟨true, true, true⟩, s.submitted⟩)
  ∧ (onContactChange s f t).submitted = false
  ∧ (onContactChange s f t).touched = s.touched
  ∧ (onContactChange s f t).values.field f = t
  ∧ (∀ g : ContactField, g ≠ f →
      (onContactChange s f t).values.field g = s.values.field g) := by
  refine ⟨?_, ?_, rfl, rfl, ?_, ?_⟩
  · intro h
    simp [onContactSubmit, h]
  · intro h
    simp [onContactSubmit, h]
  · cases f <;> rfl
  · intro g hg
    cases f <;> cases g <;>
      simp_all [onContactChange, ContactValues.setField, ContactValues.field]

/-- Witness for C3: a concrete valid submit clears the session, and a
concrete invalid submit keeps the empty values and marks all touched. -/
theorem contact_submit_flow_witness :
    onContactSubmit ⟨⟨['A', 'n', 'n'], ['a', '@', 'b', '.', 'c', 'o', 'm'],
        ['a', 'a', 'a', 'a', 'a', 'a', 'a', 'a', 'a', 'a',
          'a', 'a', 'a', 'a', 'a', 'a', 'a', 'a', 'a', 'a']⟩,
        ⟨false, false, true⟩, false⟩
      = ⟨⟨[], [], []⟩, ⟨false, false, false⟩, true⟩
    ∧ onContactSubmit ⟨⟨[], [], []⟩, ⟨false, false, false⟩, false⟩
      = ⟨⟨[], [], []⟩, ⟨true, true, true⟩, false⟩ :=
  ⟨(contact_submit_flow ⟨⟨['A', 'n', 'n'], ['a', '@', 'b', '.', 'c', 'o', 'm'],
        ['a', 'a', 'a', 'a', 'a', 'a', 'a', 'a', 'a', 'a',
          'a', 'a', 'a', 'a', 'a', 'a', 'a', 'a', 'a', 'a']⟩,
        ⟨false, false, true⟩, false⟩ ContactField.name []).1 (by decide),
    (contact_submit_flow ⟨⟨[], [], []⟩, ⟨false, false, false⟩, false⟩
        ContactField.name []).2.1 (by decide)⟩

/-! ### Helper lemmas on the scroll-spy comparator and selection -/

lemma visLe_iff (a b : VisEntry) :
    visLe a b = true ↔
      (b.ratioVal < a.ratioVal ∨ (a.ratioVal = b.ratioVal ∧ |a.top| ≤ |b.top|)) := by
  unfold visLe
  by_cases h : b.ratioVal = a.ratioVal
  · simp [h, sub_nonpos]
  · have h' : ¬ (a.ratioVal = b.ratioVal) := fun e => h e.symm
    simp only [h, h', ne_eq, not_false_eq_true, if_true, decide_eq_true_eq,
      sub_nonpos, false_and, or_false]
    exact ⟨fun hle => lt_of_le_of_ne hle h, le_of_lt⟩

lemma visLe_total (a b : VisEntry) : visLe a b || visLe b a := by
  rw [Bool.or_eq_true, visLe_iff, visLe_iff]
  rcases lt_trichotomy a.ratioVal b.ratioVal with h | h | h
  · exact Or.inr (Or.inl h)
  · rcases le_total |a.top| |b.top| with ht | ht
    · exact Or.inl (Or.inr ⟨h, ht⟩)
    · exact Or.inr (Or.inr ⟨h.symm, ht⟩)
  · exact Or.inl (Or.inl h)

lemma visLe_trans (a b c : VisEntry) (hab : visLe a b) (hbc : visLe b c) :
    visLe a c = true := by
  rw [visLe_iff] at *
  rcases hab with h1 | ⟨h1, h1t⟩ <;> rcases hbc with h2 | ⟨h2, h2t⟩
  · exact Or.inl (lt_trans h2 h1)
  · exact Or.inl (h2 ▸ h1)
  · exact Or.inl (h1 ▸ h2)
  · exact Or.inr ⟨h1.trans h2, le_trans h1t h2t⟩

/-- The list of projected intersecting entries ranked by the callback. -/
def visList (entries : List ObsEntry) : List VisEntry :=
  (entries.filter (·.isIntersecting)).map
    (fun e => VisEntry.mk e.targetId e.ratioVal e.top)

lemma selectVisible_eq (entries : List ObsEntry) :
    selectVisible entries = ((visList entries).mergeSort visLe).head? := rfl

lemma selectVisible_spec (entries : List ObsEntry) (v : VisEntry)
    (h : selectVisible entries = some v) :
    v ∈ visList entries ∧ ∀ e ∈ visList entries, visLe v e = true := by
  rw [selectVisible_eq] at h
  obtain ⟨t, ht⟩ := List.head?_eq_some_iff.mp h
  have hperm := List.mergeSort_perm (visList entries) visLe
  have hsorted := List.sorted_mergeSort
    (fun a b c hab hbc => visLe_trans a b c hab hbc)
    (fun a b => visLe_total a b) (visList entries)
  rw [ht, List.pairwise_cons] at hsorted
  constructor
  · refine hperm.mem_iff.mp ?_
    rw [ht]
    exact List.mem_cons_self _ _
  · intro e he
    have he' : e ∈ v :: t := by
      rw [← ht]
      exact hperm.mem_iff.mpr he
    rcases List.mem_cons.mp he' with rfl | he''
    · exact (visLe_iff e e).mpr (Or.inr ⟨rfl, le_refl _⟩)
    · exact hsorted.1 e he''

lemma selectVisible_mem (entries : List ObsEntry) (v : VisEntry)
    (h : selectVisible entries = some v) :
    ∃ e ∈ entries, e.isIntersecting = true ∧ v.id = e.targetId := by
  obtain ⟨hmem, _⟩ := selectVisible_spec entries v h
  unfold visList at hmem
  obtain ⟨e, he, hv⟩ := List.mem_map.mp hmem
  refine ⟨e, (List.mem_filter.mp he).1, (List.mem_filter.mp he).2, ?_⟩
  rw [← hv]

/-- The qualifying test of the fallback walk as a Boolean predicate. -/
def fallbackQual (offsetTop : String → Option ℚ) (scrollY : ℚ) (id : String) : Bool :=
  match offsetTop id with
  | none => false
  | some t => decide (t ≤ scrollY + headerOffset)

lemma getLastD_cons (hd a : String) (xs : List String) :
    ((hd :: xs).getLast?).getD a = (xs.getLast?).getD hd := by
  cases xs with
  | nil => rfl
  | cons x xs' =>
    rw [List.getLast?_cons_cons]
    obtain ⟨y, hy⟩ : ∃ y, (x :: xs').getLast? = some y := by
      cases h : (x :: xs').getLast? with
      | none => exact absurd (List.getLast?_eq_none_iff.mp h) (by simp)
      | some y => exact ⟨y, rfl⟩
    rw [hy]
    rfl

lemma fallback_foldl (offsetTop : String → Option ℚ) (scrollY : ℚ) :
    ∀ (l : List String) (a : String),
      l.foldl (fallbackUpd offsetTop scrollY) a =
        ((l.filter (fallbackQual offsetTop scrollY)).getLast?).getD a := by
  intro l
  induction l with
  | nil => intro a; rfl
  | cons hd tl ih =>
    intro a
    rw [List.foldl_cons, List.filter_cons]
    cases hoc : offsetTop hd with
    | none =>
      have hq : fallbackQual offsetTop scrollY hd = false := by
        unfold fallbackQual
        rw [hoc]
      have hu : fallbackUpd offsetTop scrollY a hd = a := by
        unfold fallbackUpd
        rw [hoc]
      rw [hq, hu]
      simpa using ih a
    | some t =>
      by_cases hle : t ≤ scrollY + headerOffset
      · have hq : fallbackQual offsetTop scrollY hd = true := by
          unfold fallbackQual
          rw [hoc]
          simpa using hle
        have hu : fallbackUpd offsetTop scrollY a hd = hd := by
          unfold fallbackUpd
          rw [hoc]
          simp [hle]
        rw [hq, hu, if_pos rfl, ih hd, getLastD_cons]
      · have hq : fallbackQual offsetTop scrollY hd = false := by
          unfold fallbackQual
          rw [hoc]
          simpa using hle
        have hu : fallbackUpd offsetTop scrollY a hd = a := by
          unfold fallbackUpd
          rw [hoc]
          simp [hle]
        rw [hq, hu]
        simpa using ih a

lemma fallbackSelect_eq (offsetTop : String → Option ℚ) (scrollY : ℚ)
    (first : String) (rest : List String) :
    fallbackSelect offsetTop scrollY (first :: rest) =
      some ((((first :: rest).filter
        (fallbackQual offsetTop scrollY)).getLast?).getD first) := by
  rw [show fallbackSelect offsetTop scrollY (first :: rest) =
      some ((first :: rest).foldl (fallbackUpd offsetTop scrollY) first) from rfl,
    fallback_foldl]

lemma fallbackSelect_mem (offsetTop : String → Option ℚ) (scrollY : ℚ)
    (ids : List String) (r : String) (h : fallbackSelect offsetTop scrollY ids = some r) :
    r ∈ ids := by
  cases ids with
  | nil => exact absurd h (by simp [fallbackSelect])
  | cons first rest =>
    rw [fallbackSelect_eq] at h
    cases hl : (((first :: rest).filter (fallbackQual offsetTop scrollY)).getLast?) with
    | none =>
      rw [hl] at h
      simp only [Option.getD_none, Option.some.injEq] at h
      rw [← h]
      exact List.mem_cons_self _ _
    | some y =>
      rw [hl] at h
      simp only [Option.getD_some, Option.some.injEq] at h
      rw [← h]
      exact List.mem_of_mem_filter (List.mem_of_getLast?_eq_some hl)

/-! ### Claim theorems: scroll spy -/

/-- C10: on an empty section list the active id starts as the literal
home, no observer or listener is installed so no event sequence moves
it, and it is not a member of the empty id list. -/
theorem scrollspy_empty_list (events : List SpyEvent) :
    spyRun [] events = "home" ∧ initActive [] = "home" ∧ "home" ∉ ([] : List String) :=
  ⟨rfl, rfl, by simp⟩

/-- C4 counterexample: the nonempty section list holding only the empty
string starts the active id at home, which is neither the first
listed id nor a member of the list. -/
theorem scrollspy_member_cex :
    initActive [""] = "home" ∧ "home" ∉ ([""] : List String) ∧ spyRun [""] [] = "home" :=
  ⟨rfl, by simp, rfl⟩

/-- C4 (amended: the ids must be truthy, that is nonempty, strings; the
untruthy ids are filtered away and an untruthy first id is replaced by
the literal home): for every nonempty list of nonempty section ids, in
the initial state and after every sequence of observer and scroll
events whose observer entries carry observed section ids, the active id
is a member of the list, and it equals the first id before any event. -/
theorem scrollspy_member_invariant (sectionIds : List String) (events : List SpyEvent)
    (h₀ : sectionIds ≠ []) (h₁ : ∀ id ∈ sectionIds, id ≠ "")
    (hev : ∀ entries, SpyEvent.observe entries ∈ events →
      ∀ e ∈ entries, e.targetId ∈ sectionIds) :
    spyRun sectionIds events ∈ sectionIds
    ∧ initActive sectionIds = sectionIds.head h₀ := by
  obtain ⟨first, rest, rfl⟩ : ∃ f r, sectionIds = f :: r := by
    cases sectionIds with
    | nil => exact absurd rfl h₀
    | cons f r => exact ⟨f, r, rfl⟩
  have hfilter : filterIds (first :: rest) = first :: rest :=
    List.filter_eq_self.mpr (fun a ha => decide_eq_true (h₁ a ha))
  have hinit : initActive (first :: rest) = first := by
    rw [show initActive (first :: rest) = if first = "" then "home" else first from rfl,
      if_neg (h₁ first (List.mem_cons_self _ _))]
  have hinv : ∀ (evs : List SpyEvent) (active : String), active ∈ first :: rest →
      (∀ entries, SpyEvent.observe entries ∈ evs →
        ∀ e ∈ entries, e.targetId ∈ first :: rest) →
      evs.foldl (spyStep (first :: rest)) active ∈ first :: rest := by
    intro evs
    induction evs with
    | nil => exact fun active ha _ => ha
    | cons ev evt ih =>
      intro active ha hev'
      rw [List.foldl_cons]
      refine ih _ ?_ (fun entries hm e he => hev' entries (List.mem_cons_of_mem _ hm) e he)
      cases ev with
      | observe entries =>
        show (observerStep active entries).1 ∈ first :: rest
        unfold observerStep
        cases hsel : selectVisible entries with
        | none => exact ha
        | some v =>
          by_cases hne : v.id = active
          · simp only [hne, ne_eq, not_true_eq_false, if_false]
            exact ha
          · simp only [ne_eq, hne, not_false_eq_true, if_true]
            obtain ⟨e, he, _, hid⟩ := selectVisible_mem entries v hsel
            rw [hid]
            exact hev' entries (List.mem_cons_self _ _) e he
      | scroll offsetTop y =>
        show (fallbackStep active offsetTop y (first :: rest)).1 ∈ first :: rest
        unfold fallbackStep
        cases hsel : fallbackSelect offsetTop y (first :: rest) with
        | none => exact ha
        | some current =>
          by_cases hne : current = active
          · simp only [hne, ne_eq, not_true_eq_false, if_false]
            exact ha
          · simp only [ne_eq, hne, not_false_eq_true, if_true]
            exact fallbackSelect_mem offsetTop y _ current hsel
  refine ⟨?_, hinit⟩
  unfold spyRun
  rw [hfilter]
  simp only [List.isEmpty_cons, if_false, Bool.false_eq_true]
  rw [hinit]
  exact hinv events first (List.mem_cons_self _ _) hev

/-- Witness for C4: the concrete two-section list with no event keeps
the active id home, a member of the list. -/
theorem scrollspy_member_invariant_witness :
    spyRun ["home", "about"] [] ∈ ["home", "about"]
    ∧ initActive ["home", "about"] = "home" := by
  have h := scrollspy_member_invariant ["home", "about"] [] (by simp) (by decide)
    (fun entries hm => absurd hm (List.not_mem_nil _))
  exact ⟨h.1, h.2⟩

/-- C5: whenever the observer callback selects an entry, that entry is
one of the projected intersecting entries, its intersection ratio is
maximal among them, and among entries of that maximal ratio its
absolute top distance from the viewport top is minimal. -/
theorem scrollspy_ranking (entries : List ObsEntry) (v : VisEntry)
    (h : selectVisible entries = some v) :
    v ∈ visList entries
    ∧ (∀ e ∈ visList entries, e.ratioVal ≤ v.ratioVal)
    ∧ (∀ e ∈ visList entries, e.ratioVal = v.ratioVal → |v.top| ≤ |e.top|) := by
  obtain ⟨hmem, hall⟩ := selectVisible_spec entries v h
  refine ⟨hmem, ?_, ?_⟩
  · intro e he
    rcases (visLe_iff v e).mp (hall e he) with h1 | ⟨h1, _⟩
    · exact le_of_lt h1
    · exact le_of_eq h1.symm
  · intro e he heq
    rcases (visLe_iff v e).mp (hall e he) with h1 | ⟨_, h2⟩
    · exact absurd heq (ne_of_lt h1)
    · exact h2

/-- Witness for C5: a single intersecting home entry is selected and is
trivially maximal. -/
theorem scrollspy_ranking_witness :
    VisEntry.mk "home" 1 0 ∈ visList [ObsEntry.mk "home" true 1 0] :=
  (scrollspy_ranking [ObsEntry.mk "home" true 1 0] (VisEntry.mk "home" 1 0)
    (by simp [selectVisible, visList])).1

/-- C6: on a nonempty id list the fallback handler selects the last id
in list order whose element exists and whose top offset is at most the
scroll position plus 96, skipping ids with no element, and defaults to
the first id when none qualifies. -/
theorem scrollspy_fallback (offsetTop : String → Option ℚ) (scrollY : ℚ)
    (first : String) (rest : List String) :
    fallbackSelect offsetTop scrollY (first :: rest) =
      some ((((first :: rest).filter (fun id =>
        match offsetTop id with
        | none => false
        | some t => decide (t ≤ scrollY + 96))).getLast?).getD first) :=
  fallbackSelect_eq offsetTop scrollY first rest

/-- C9: an observer callback whose selection carries the already active
id, and a scroll event whose walk lands on the already active id, leave
the state unchanged and emit no update. -/
theorem scrollspy_idempotent (active : String) (entries : List ObsEntry) (v : VisEntry)
    (offsetTop : String → Option ℚ) (scrollY : ℚ) (ids : List String) :
    (selectVisible entries = some v → v.id = active →
      observerStep active entries = (active, false))
  ∧ (fallbackSelect offsetTop scrollY ids = some active →
      fallbackStep active offsetTop scrollY ids = (active, false)) := by
  constructor
  · intro h hid
    unfold observerStep
    rw [h]
    simp [hid]
  · intro h
    unfold fallbackStep
    rw [h]
    simp

/-- Witness for C9: concrete re-selections of the active home id emit
no update on either path. -/
theorem scrollspy_idempotent_witness :
    observerStep "home" [ObsEntry.mk "home" true 1 0] = ("home", false)
    ∧ fallbackStep "home" (fun _ => some 0) 0 ["home"] = ("home", false) :=
  ⟨(scrollspy_idempotent "home" [ObsEntry.mk "home" true 1 0] (VisEntry.mk "home" 1 0)
      (fun _ => some 0) 0 ["home"]).1 (by simp [selectVisible, visList]) rfl,
    (scrollspy_idempotent "home" [ObsEntry.mk "home" true 1 0] (VisEntry.mk "home" 1 0)
      (fun _ => some 0) 0 ["home"]).2
      (by norm_num [fallbackSelect, fallbackUpd, headerOffset])⟩

/-! ### Helper lemmas on the reveal controller -/

lemma revealUpd_mono (st : RevealState) (e : RevealEntry) (x : String)
    (hx : x ∈ st.revealed) : x ∈ (revealUpd st e).revealed := by
  unfold revealUpd
  split
  · exact Finset.mem_insert_of_mem hx
  · exact hx

lemma revealStep_mono (s : RevealState) (entries : List RevealEntry) (x : String)
    (hx : x ∈ s.revealed) : x ∈ (revealStep s entries).revealed := by
  induction entries generalizing s with
  | nil => exact hx
  | cons e et ih =>
    show x ∈ (revealStep (revealUpd s e) et).revealed
    exact ih _ (revealUpd_mono s e x hx)

lemma revealRun_mono (s : RevealState) (events : List (List RevealEntry)) (x : String)
    (hx : x ∈ s.revealed) : x ∈ (revealRun s events).revealed := by
  induction events generalizing s with
  | nil => exact hx
  | cons ev evt ih =>
    show x ∈ (revealRun (revealStep s ev) evt).revealed
    exact ih _ (revealStep_mono s ev x hx)

lemma revealUpd_retire (st : RevealState) (e : RevealEntry) (x : String)
    (h : x ∈ st.revealed → x ∉ st.observed) :
    x ∈ (revealUpd st e).revealed → x ∉ (revealUpd st e).observed := by
  unfold revealUpd
  split
  · intro hx
    rcases Finset.mem_insert.mp hx with rfl | hx'
    · exact Finset.not_mem_erase _ _
    · exact fun hco => h hx' (Finset.mem_of_mem_erase hco)
  · exact h

lemma revealStep_retire (s : RevealState) (entries : List RevealEntry) (x : String)
    (h : x ∈ s.revealed → x ∉ s.observed) :
    x ∈ (revealStep s entries).revealed → x ∉ (revealStep s entries).observed := by
  induction entries generalizing s with
  | nil => exact h
  | cons e et ih =>
    show x ∈ (revealStep (revealUpd s e) et).revealed →
      x ∉ (revealStep (revealUpd s e) et).observed
    exact ih _ (revealUpd_retire s e x h)

lemma revealTrace_cons_ex (s : RevealState) (events : List (List RevealEntry)) :
    ∃ t, revealTrace s events = s :: t := by
  cases events with
  | nil => exact ⟨[], rfl⟩
  | cons ev evt => exact ⟨_, List.scanl_cons⟩

lemma transitionCount_cons (x : String) (s s' : RevealState) (t : List RevealState) :
    transitionCount x (s :: s' :: t) =
      (if x ∉ s.revealed ∧ x ∈ s'.revealed then 1 else 0)
        + transitionCount x (s' :: t) := by
  unfold transitionCount
  rw [show (s :: s' :: t).tail = s' :: t from rfl,
    show (s' :: t).tail = t from rfl, List.zip_cons_cons, List.countP_cons]
  rw [Nat.add_comm]
  congr 1
  by_cases h : x ∉ s.revealed ∧ x ∈ s'.revealed
  · rw [if_pos h, if_pos (by simpa using h)]
  · rw [if_neg h, if_neg (by simpa using h)]

lemma transitionCount_zero (x : String) :
    ∀ (events : List (List RevealEntry)) (s : RevealState), x ∈ s.revealed →
      transitionCount x (revealTrace s events) = 0 := by
  intro events
  induction events with
  | nil => intro s _; rfl
  | cons ev evt ih =>
    intro s hx
    obtain ⟨t, ht⟩ := revealTrace_cons_ex (revealStep s ev) evt
    rw [show revealTrace s (ev :: evt) = s :: revealTrace (revealStep s ev) evt
        from List.scanl_cons, ht, transitionCount_cons,
      if_neg (fun hc => hc.1 hx), ← ht, ih _ (revealStep_mono s ev x hx)]

lemma transitionCount_le_one (x : String) :
    ∀ (events : List (List RevealEntry)) (s : RevealState),
      transitionCount x (revealTrace s events) ≤ 1 := by
  intro events
  induction events with
  | nil => intro s; exact Nat.zero_le 1
  | cons ev evt ih =>
    intro s
    obtain ⟨t, ht⟩ := revealTrace_cons_ex (revealStep s ev) evt
    rw [show revealTrace s (ev :: evt) = s :: revealTrace (revealStep s ev) evt
        from List.scanl_cons, ht, transitionCount_cons, ← ht]
    by_cases hx : x ∈ (revealStep s ev).revealed
    · rw [transitionCount_zero x evt _ hx]
      split <;> omega
    · rw [if_neg (fun hc => hx hc.2)]
      simpa using ih (revealStep s ev)

lemma mem_foldl_insert_of_mem (l : List String) (init : Finset String) (x : String)
    (hx : x ∈ init) : x ∈ l.foldl (fun r e => insert e r) init := by
  induction l generalizing init with
  | nil => exact hx
  | cons hd tl ih => exact ih _ (Finset.mem_insert_of_mem hx)

lemma mem_foldl_insert (l : List String) (init : Finset String) (x : String)
    (hx : x ∈ l) : x ∈ l.foldl (fun r e => insert e r) init := by
  induction l generalizing init with
  | nil => exact absurd hx (List.not_mem_nil x)
  | cons hd tl ih =>
    rw [List.foldl_cons]
    rcases List.mem_cons.mp hx with rfl | hx'
    · exact mem_foldl_insert_of_mem tl _ x (Finset.mem_insert_self x init)
    · exact ih (insert hd init) hx'

/-! ### Claim theorems: reveal controller -/

/-- C7: the revealed set is monotone along every event sequence, an
element newly revealed by a callback batch leaves the observed set in
that same batch, and along every trace an element moves from hidden to
revealed at most once. -/
theorem reveal_monotone (s : RevealState) (entries : List RevealEntry)
    (events : List (List RevealEntry)) (x : String) :
    (x ∈ s.revealed → x ∈ (revealRun s events).revealed)
  ∧ (x ∉ s.revealed → x ∈ (revealStep s entries).revealed →
      x ∉ (revealStep s entries).observed)
  ∧ transitionCount x (revealTrace s events) ≤ 1 :=
  ⟨revealRun_mono s events x,
    fun hx => revealStep_retire s entries x (fun h => absurd h hx),
    transitionCount_le_one x events s⟩

/-- Witness for C7: an element already revealed stays revealed over a
concrete run, and a concretely newly revealed element is unobserved. -/
theorem reveal_monotone_witness :
    "a" ∈ (revealRun ⟨{"a"}, {"a", "b"}⟩ [[RevealEntry.mk "b" true]]).revealed
    ∧ "b" ∉ (revealStep ⟨{"a"}, {"a", "b"}⟩ [RevealEntry.mk "b" true]).observed :=
  ⟨(reveal_monotone ⟨{"a"}, {"a", "b"}⟩ [RevealEntry.mk "b" true]
      [[RevealEntry.mk "b" true]] "a").1 (by decide),
    (reveal_monotone ⟨{"a"}, {"a", "b"}⟩ [RevealEntry.mk "b" true]
      [[RevealEntry.mk "b" true]] "b").2.1 (by decide) (by decide)⟩

/-- C8: under reduced motion, or without the observation capability,
every reveal-marked element present at the effect run is revealed at
once and nothing is observed, so no intersection event is needed. -/
theorem reveal_immediate (reducedMotion hasObserver : Bool) (elements : List String)
    (revealed₀ : Finset String)
    (h : reducedMotion = true ∨ hasObserver = false) :
    (∀ x ∈ elements, x ∈ (revealEffect reducedMotion hasObserver elements revealed₀).revealed)
    ∧ (revealEffect reducedMotion hasObserver elements revealed₀).observed = ∅ := by
  unfold revealEffect
  by_cases he : elements.isEmpty
  · rw [if_pos he]
    have : elements = [] := List.isEmpty_iff.mp he
    subst this
    exact ⟨fun x hx => absurd hx (List.not_mem_nil x), rfl⟩
  · rw [if_neg he]
    rcases h with rfl | rfl
    · rw [if_pos rfl]
      exact ⟨fun x hx => mem_foldl_insert elements revealed₀ x hx, rfl⟩
    · cases reducedMotion with
      | true =>
        rw [if_pos rfl]
        exact ⟨fun x hx => mem_foldl_insert elements revealed₀ x hx, rfl⟩
      | false =>
        rw [if_neg (by simp), if_pos (by simp)]
        exact ⟨fun x hx => mem_foldl_insert elements revealed₀ x hx, rfl⟩

/-- Witness for C8: with reduced motion on, the single marked element
is revealed at once and nothing is observed. -/
theorem reveal_immediate_witness :
    "a" ∈ (revealEffect true true ["a"] ∅).revealed
    ∧ (revealEffect true true ["a"] ∅).observed = ∅ :=
  ⟨(reveal_immediate true true ["a"] ∅ (Or.inl rfl)).1 "a" (by simp),
    (reveal_immediate true true ["a"] ∅ (Or.inl rfl)).2⟩

end Portfolio
